import Mathlib

/-!
Verification development for the grammY raw-update bot's session module
(`src/session.ts`), its forward-origin type guards (`src/typeGuards.ts`,
`src/types.ts`) and the `/import` command handler of the bot file.

The TypeScript runtime values are embedded shallowly:
* records with optional fields become structures with `Option` fields, so
  that the "safety checks for undefined values" in the source are visible;
* `Record` objects used as maps become functions into `Option`;
* the platform builtins `btoa` / `atob` and `JSON.stringify` / `JSON.parse`
  are modelled byte- and grammar-faithfully for the value shapes the
  session codec produces: a standard base64 codec over byte lists, and a
  JSON abstract syntax of booleans, strings (no escape sequences are ever
  produced by the codec) and objects whose keys are kept in the insertion
  order of the source object literals.
-/

/-- The twelve message types of `MessageType` in `src/session.ts`. -/
inductive MessageType where
  | text | photo | video | document | audio | sticker
  | animation | voice | poll | location | contact | forward
  deriving DecidableEq, Fintype

/-- Display mode of `ViewPreferences.displayMode`. -/
inductive DisplayMode where
  | compact | full | raw
  deriving DecidableEq

/-- `ViewPreferences.privacyOptions` of `src/session.ts`. -/
structure PrivacyOptions where
  maskUserIds : Bool
  maskPhoneNumbers : Bool
  maskChatIds : Bool
  deriving DecidableEq

/-- `ViewPreferences` of `src/session.ts`. -/
structure ViewPreferences where
  displayMode : DisplayMode
  showForwardInfo : Bool
  showAuthorInfo : Bool
  privacyOptions : PrivacyOptions
  deriving DecidableEq

/-- `MessageFilters` of `src/session.ts`, at the runtime level anticipated by
`shouldProcessMessageType`: both fields, and each entry of `enabledTypes`,
may be missing in legacy session records, so they are `Option`-valued here.
Fresh defaults populate every field. -/
structure MessageFilters where
  enabledTypes : Option (MessageType → Option Bool)
  respondToAll : Option Bool

/-- `UserPreferences` of `src/session.ts`. -/
structure UserPreferences where
  viewPreferences : ViewPreferences
  deriving DecidableEq

/-- `SessionData` of `src/session.ts`; `userPreferences` is a sparse map
keyed by numeric user id. -/
structure SessionData where
  enabled : Bool
  viewPreferences : ViewPreferences
  messageFilters : MessageFilters
  usePerUserPreferences : Bool
  userPreferences : Nat → Option UserPreferences

/-- `Partial<SessionData>`: every top-level field may be absent. -/
structure PartialSessionData where
  enabled : Option Bool
  viewPreferences : Option ViewPreferences
  messageFilters : Option MessageFilters
  usePerUserPreferences : Option Bool
  userPreferences : Option (Nat → Option UserPreferences)

/-- The inclusion of `SessionData` into `Partial<SessionData>`: every field
is present.  In TypeScript this coercion is implicit. -/
def partialOfSession (s : SessionData) : PartialSessionData :=
  ⟨some s.enabled, some s.viewPreferences, some s.messageFilters,
    some s.usePerUserPreferences, some s.userPreferences⟩

/-- `getDefaultMessageFilters` of `src/session.ts`: all twelve types map to
`true` and `respondToAll` is `true`. -/
def getDefaultMessageFilters : MessageFilters :=
  ⟨some (fun _ => some true), some true⟩

/-- `getDefaultViewPreferences` of `src/session.ts`. -/
def getDefaultViewPreferences (isGroup : Bool) : ViewPreferences :=
  { displayMode := if isGroup then .raw else .compact
    showForwardInfo := true
    showAuthorInfo := true
    privacyOptions :=
      { maskUserIds := false
        maskPhoneNumbers := true
        maskChatIds := false } }

/-- `getDefaultSession` of `src/session.ts`; the chat type is an optional
string, compared with string equality against the Telegram chat kinds. -/
def getDefaultSession (chatType : Option String) : SessionData :=
  let isGroup : Bool :=
    (chatType == some "group") || (chatType == some "supergroup") ||
      (chatType == some "channel")
  { enabled := chatType == some "private"
    viewPreferences := getDefaultViewPreferences isGroup
    messageFilters := getDefaultMessageFilters
    usePerUserPreferences := false
    userPreferences := fun _ => none }

/-- `ensureCompleteSession` of `src/session.ts`: each field is taken from
the partial session when present (nullish coalescing, so explicit `false`
survives) and from the chat-type defaults otherwise. -/
def ensureCompleteSession (session : PartialSessionData)
    (chatType : Option String) : SessionData :=
  let isGroup : Bool :=
    (chatType == some "group") || (chatType == some "supergroup") ||
      (chatType == some "channel")
  { enabled := session.enabled.getD (chatType == some "private")
    viewPreferences :=
      session.viewPreferences.getD (getDefaultViewPreferences isGroup)
    messageFilters := session.messageFilters.getD getDefaultMessageFilters
    usePerUserPreferences := session.usePerUserPreferences.getD false
    userPreferences := session.userPreferences.getD (fun _ => none) }

/-- `getEffectivePreferences` of `src/session.ts`.  The source first
completes the session (without a chat type), then tests
`!session.usePerUserPreferences || !userId`; the second disjunct is numeric
truthiness, so it also holds for user id `0`. -/
def getEffectivePreferences (sessionData : PartialSessionData)
    (userId : Option Nat) : ViewPreferences :=
  let session := ensureCompleteSession sessionData none
  match userId with
  | none => session.viewPreferences
  | some uid =>
    if !session.usePerUserPreferences || uid == 0 then
      session.viewPreferences
    else
      match session.userPreferences uid with
      | some userPrefs => userPrefs.viewPreferences
      | none => session.viewPreferences

/-- `shouldProcessMessageType` of `src/session.ts`.  `filters` may be
absent; `respondToAll !== false` is the strict comparison of the source;
`filters.enabledTypes[messageType] || false` maps a missing entry (and an
explicit `false`) to `false`. -/
def shouldProcessMessageType (filters : Option MessageFilters)
    (messageType : MessageType) : Bool :=
  match filters with
  | none => true
  | some filters =>
    if filters.respondToAll ≠ some false then
      true
    else
      match filters.enabledTypes with
      | none => true
      | some enabledTypes => (enabledTypes messageType).getD false

/-! ## Privacy masking (`applyPrivacyMask` of `src/session.ts`)

Each of the three option-gated substitutions is a JavaScript global regex
replacement.  Each scan below walks the character list exactly as the regex
engine does: at each position it attempts a match; on success it emits the
replacement and resumes after the matched text, otherwise it advances one
character.  The scans carry a fuel argument so that they are structurally
recursive; every step consumes at least one character, so fuel equal to the
input length never runs out. -/

/-- Length of the run of decimal digits at the head of the list
(the extent a `\d` repetition can cover from this position). -/
def digitRunLen : List Char → Nat
  | [] => 0
  | c :: cs => if c.isDigit then digitRunLen cs + 1 else 0

def fourStars : List Char := ['*', '*', '*', '*']

def sixStars : List Char := ['*', '*', '*', '*', '*', '*']

/-- The user-id pass:
`result.replace(/(\d{8,10})/g, '****$1****')`.
A match needs a digit run of length at least 8 starting at the current
position; the greedy quantifier takes at most 10 digits. -/
def maskUserIdScan : Nat → List Char → List Char
  | 0, l => l
  | _ + 1, [] => []
  | fuel + 1, c :: cs =>
    if c.isDigit then
      let len := digitRunLen (c :: cs)
      if 8 ≤ len then
        let k := min 10 len
        fourStars ++ (c :: cs).take k ++ fourStars ++
          maskUserIdScan fuel ((c :: cs).drop k)
      else c :: maskUserIdScan fuel cs
    else c :: maskUserIdScan fuel cs

/-- The phone pass:
`result.replace(/(\+\d{1,3})\d{6,}/g, '$1******')`.
A match needs a `+` followed by a digit run of length at least 7; the
greedy group keeps `min 3 (len - 6)` digits and the tail `\d{6,}` consumes
the rest of the run. -/
def maskPhoneScan : Nat → List Char → List Char
  | 0, l => l
  | _ + 1, [] => []
  | fuel + 1, c :: cs =>
    if c = '+' then
      let len := digitRunLen cs
      if 7 ≤ len then
        '+' :: cs.take (min 3 (len - 6)) ++ sixStars ++
          maskPhoneScan fuel (cs.drop len)
      else c :: maskPhoneScan fuel cs
    else c :: maskPhoneScan fuel cs

/-- The chat-id pass:
`result.replace(/(-100\d{6,})/g, '****$1****')`.
A match needs the literal `-100` followed by a digit run of length at
least 6, all of which the greedy tail consumes. -/
def maskChatIdScan : Nat → List Char → List Char
  | 0, l => l
  | _ + 1, [] => []
  | fuel + 1, c :: cs =>
    if c = '-' then
      match cs with
      | c1 :: c2 :: c3 :: cs' =>
        if c1 = '1' ∧ c2 = '0' ∧ c3 = '0' then
          let len := digitRunLen cs'
          if 6 ≤ len then
            fourStars ++ '-' :: c1 :: c2 :: c3 :: cs'.take len ++ fourStars ++
              maskChatIdScan fuel (cs'.drop len)
          else c :: maskChatIdScan fuel cs
        else c :: maskChatIdScan fuel cs
      | _ => c :: maskChatIdScan fuel cs
    else c :: maskChatIdScan fuel cs

/-- `applyPrivacyMask` of `src/session.ts`: the three substitutions run in
the fixed order user ids, phone numbers, chat ids, each only when its
option is enabled, each over the result of the previous one. -/
def applyPrivacyMask (text : String)
    (privacyOptions : PrivacyOptions) : String :=
  let r1 :=
    if privacyOptions.maskUserIds then
      String.mk (maskUserIdScan text.data.length text.data)
    else text
  let r2 :=
    if privacyOptions.maskPhoneNumbers then
      String.mk (maskPhoneScan r1.data.length r1.data)
    else r1
  if privacyOptions.maskChatIds then
    String.mk (maskChatIdScan r2.data.length r2.data)
  else r2

/-- Whether `pat` occurs as a contiguous subsequence of `s`. -/
def containsSeq (pat : List Char) : List Char → Bool
  | [] => pat.isPrefixOf []
  | c :: cs => pat.isPrefixOf (c :: cs) || containsSeq pat cs

/-! ## Forward-origin type guards (`src/typeGuards.ts`)

`AnyMessageOrigin` is an open tagged union discriminated by the runtime
string field `type` (`src/types.ts` keeps it `string` "to allow unknown
types").  The guards inspect only that tag, so the payload fields of the
four known variants are irrelevant here and the runtime value is embedded
as its tag together with the common `date` field of `MessageOriginBase`. -/

structure AnyMessageOrigin where
  type : String
  date : Nat

def isMessageOriginUser (origin : AnyMessageOrigin) : Bool :=
  origin.type == "user"

def isMessageOriginHiddenUser (origin : AnyMessageOrigin) : Bool :=
  origin.type == "hidden_user"

def isMessageOriginChat (origin : AnyMessageOrigin) : Bool :=
  origin.type == "chat"

def isMessageOriginChannel (origin : AnyMessageOrigin) : Bool :=
  origin.type == "channel"

/-- `isMessageOriginUnknown`: the tag is none of the four known ones. -/
def isMessageOriginUnknown (origin : AnyMessageOrigin) : Bool :=
  !(["user", "hidden_user", "chat", "channel"].contains origin.type)

/-! ## Base64 (the `btoa` / `atob` builtins)

`btoa` encodes a string whose code points are all below 256 as base64
text; `atob` reverses it and fails on any input that is not well-formed
base64.  The codec is modelled on byte lists with the standard alphabet;
the session codec only ever feeds it ASCII JSON text. -/

def b64Alphabet : List Char :=
  "ABCDEFGHIJKLMNOPQRSTUVWXYZabcdefghijklmnopqrstuvwxyz0123456789+/".data

/-- Character for a six-bit group. -/
def b64Char (n : Nat) : Char := b64Alphabet.getD n 'A'

/-- Index of a base64 character; `none` for anything outside the
alphabet (including `=`). -/
def b64Index (c : Char) : Option Nat := b64Alphabet.indexOf? c

/-- Standard base64 encoding of a byte list, three bytes to four
characters, with `=` padding. -/
def encodeB64 : List Nat → List Char
  | [] => []
  | [a] => [b64Char (a / 4), b64Char (a % 4 * 16), '=', '=']
  | [a, b] => [b64Char (a / 4), b64Char (a % 4 * 16 + b / 16),
      b64Char (b % 16 * 4), '=']
  | a :: b :: c :: rest =>
    b64Char (a / 4) :: b64Char (a % 4 * 16 + b / 16) ::
      b64Char (b % 16 * 4 + c / 64) :: b64Char (c % 64) :: encodeB64 rest

/-- Standard base64 decoding: the input must be a sequence of four-character
groups over the alphabet, with `=` padding only at the very end. -/
def decodeB64 : List Char → Option (List Nat)
  | [] => some []
  | c1 :: c2 :: c3 :: c4 :: rest =>
    match b64Index c1, b64Index c2 with
    | some i1, some i2 =>
      if c3 = '=' then
        if c4 = '=' ∧ rest = [] then some [i1 * 4 + i2 / 16] else none
      else
        match b64Index c3 with
        | some i3 =>
          if c4 = '=' then
            if rest = [] then some [i1 * 4 + i2 / 16, i2 % 16 * 16 + i3 / 4]
            else none
          else
            match b64Index c4 with
            | some i4 =>
              (decodeB64 rest).map fun bs =>
                (i1 * 4 + i2 / 16) :: (i2 % 16 * 16 + i3 / 4) ::
                  (i3 % 4 * 64 + i4) :: bs
            | none => none
        | none => none
    | _, _ => none
  | _ => none

/-- `btoa`: bytes are the code points of the input characters.  The builtin
throws for code points of 256 and above; the session codec only passes
ASCII text (proved below), on which this total model agrees with it. -/
def btoaStr (s : String) : String :=
  String.mk (encodeB64 (s.data.map Char.toNat))

/-- `atob`: decode and turn the bytes back into characters; `none` models
the `InvalidCharacterError` the builtin throws on malformed input. -/
def atobStr (s : String) : Option String :=
  (decodeB64 s.data).map fun bs => String.mk (bs.map Char.ofNat)

/-! ## JSON (the `JSON.stringify` / `JSON.parse` builtins)

The settings codec serializes objects built from booleans, strings and
nested object literals only, so the JSON value space is restricted to that
fragment.  Object keys are kept in insertion order, which for the values
the codec produces is the field order of the source object literals.
`JSON.stringify` emits no whitespace and, for the strings that occur here
(fixed identifiers), no escape sequences. -/

mutual

inductive Json where
  | jbool : Bool → Json
  | jstr : String → Json
  | jobj : JsonFields → Json

inductive JsonFields where
  | fnil : JsonFields
  | fcons : String → Json → JsonFields → JsonFields

end

mutual

/-- `JSON.stringify` on the fragment: booleans, unescaped strings, objects
with keys in insertion order, no whitespace. -/
def Json.stringify : Json → List Char
  | .jbool true => ['t', 'r', 'u', 'e']
  | .jbool false => ['f', 'a', 'l', 's', 'e']
  | .jstr s => '\"' :: s.data ++ ['\"']
  | .jobj fs => '\x7b' :: (JsonFields.strFields fs ++ ['\x7d'])

/-- The comma-separated member list of an object body. -/
def JsonFields.strFields : JsonFields → List Char
  | .fnil => []
  | .fcons k v .fnil => '\"' :: (k.data ++ ('\"' :: ':' :: Json.stringify v))
  | .fcons k v rest =>
    '\"' :: (k.data ++ ('\"' :: ':' ::
      (Json.stringify v ++ (',' :: JsonFields.strFields rest))))

end

/-- Characters allowed inside the model's JSON strings: single-byte code
points (so `btoa` accepts the serialized text) that need no escaping. -/
def goodChar (c : Char) : Bool :=
  decide (c.toNat < 256) && !(c == '\"') && !(c == '\\')

mutual

/-- Well-formedness of a JSON value for this fragment: every string (key or
value) consists of `goodChar` characters. -/
def Json.wf : Json → Bool
  | .jbool _ => true
  | .jstr s => s.data.all goodChar
  | .jobj fs => JsonFields.wf fs

def JsonFields.wf : JsonFields → Bool
  | .fnil => true
  | .fcons k v rest => k.data.all goodChar && Json.wf v && JsonFields.wf rest

end

mutual

/-- Fuel needed by the recursive-descent reader of this value. -/
def Json.pdepth : Json → Nat
  | .jbool _ => 1
  | .jstr _ => 1
  | .jobj fs => JsonFields.pdepth fs + 1

def JsonFields.pdepth : JsonFields → Nat
  | .fnil => 1
  | .fcons _ v rest => max (Json.pdepth v) (JsonFields.pdepth rest) + 1

end

/-- Body of a string literal after its opening quote: the characters up to
the next quote, and the remainder after the closing quote.  No escape
handling, matching the fragment `stringify` produces. -/
def parseStrBody : List Char → Option (List Char × List Char)
  | [] => none
  | c :: cs =>
    if c = '\"' then some ([], cs)
    else (parseStrBody cs).map fun p => (c :: p.1, p.2)

mutual

/-- Recursive-descent reader for the JSON fragment, modelling `JSON.parse`
on the texts the codec produces; any text outside the fragment is rejected
with `none` (`JSON.parse` throws, and `importSettings` catches). -/
def parseJsonVal : Nat → List Char → Option (Json × List Char)
  | 0, _ => none
  | _ + 1, [] => none
  | fuel + 1, c :: r =>
    if c = '\"' then
      (parseStrBody r).map fun p => (Json.jstr (String.mk p.1), p.2)
    else if c = '\x7b' then
      match r with
      | [] => none
      | c2 :: r2 =>
        if c2 = '\x7d' then some (Json.jobj JsonFields.fnil, r2)
        else
          (parseJsonMembers fuel (c2 :: r2)).map fun p => (Json.jobj p.1, p.2)
    else if c = 't' then
      match r with
      | 'r' :: 'u' :: 'e' :: r2 => some (Json.jbool true, r2)
      | _ => none
    else if c = 'f' then
      match r with
      | 'a' :: 'l' :: 's' :: 'e' :: r2 => some (Json.jbool false, r2)
      | _ => none
    else none

/-- Members of a non-empty object body, consuming the closing brace. -/
def parseJsonMembers : Nat → List Char → Option (JsonFields × List Char)
  | 0, _ => none
  | _ + 1, [] => none
  | fuel + 1, c :: r =>
    if c = '\"' then
      match parseStrBody r with
      | none => none
      | some (k, r1) =>
        match r1 with
        | [] => none
        | c1 :: r2 =>
          if c1 = ':' then
            match parseJsonVal fuel r2 with
            | none => none
            | some (v, r3) =>
              match r3 with
              | [] => none
              | c3 :: r4 =>
                if c3 = ',' then
                  (parseJsonMembers fuel r4).map fun p =>
                    (JsonFields.fcons (String.mk k) v p.1, p.2)
                else if c3 = '\x7d' then
                  some (JsonFields.fcons (String.mk k) v JsonFields.fnil, r4)
                else none
          else none
    else none

end

/-- `JSON.parse` of a whole text: the fragment reader must consume the
entire input.  The fuel `length + 1` suffices because every reader step
consumes at least one character. -/
def parseJsonText (s : String) : Option Json :=
  match parseJsonVal (s.data.length + 1) s.data with
  | some (j, []) => some j
  | _ => none

/-- Property lookup on a parsed member list (all keys the codec produces
are distinct, so first match suffices). -/
def fieldLookup (k : String) : JsonFields → Option Json
  | .fnil => none
  | .fcons k' v rest => if k = k' then some v else fieldLookup k rest

/-- JavaScript property access `j.k`: a defined value only on objects with
that key; on other values the access yields `undefined`. -/
def jsonGet (j : Json) (k : String) : Option Json :=
  match j with
  | .jobj fs => fieldLookup k fs
  | _ => none

/-! ## The settings codec (`generateExportCommand` / `importSettings`)

The JSON value of a runtime `ViewPreferences` or `MessageFilters` object is
fixed by the construction order of its fields in `src/session.ts`; a field
that is `undefined` at runtime is simply absent from the serialization. -/

/-- JSON key of a message type (the keys of `enabledTypes`). -/
def mtName : MessageType → String
  | .text => "text"
  | .photo => "photo"
  | .video => "video"
  | .document => "document"
  | .audio => "audio"
  | .sticker => "sticker"
  | .animation => "animation"
  | .voice => "voice"
  | .poll => "poll"
  | .location => "location"
  | .contact => "contact"
  | .forward => "forward"

/-- The twelve message types in the key order of
`getDefaultMessageFilters`. -/
def mtList : List MessageType :=
  [.text, .photo, .video, .document, .audio, .sticker,
   .animation, .voice, .poll, .location, .contact, .forward]

def dmString : DisplayMode → String
  | .compact => "compact"
  | .full => "full"
  | .raw => "raw"

def privacyToJson (p : PrivacyOptions) : Json :=
  .jobj (.fcons "maskUserIds" (.jbool p.maskUserIds)
    (.fcons "maskPhoneNumbers" (.jbool p.maskPhoneNumbers)
      (.fcons "maskChatIds" (.jbool p.maskChatIds) .fnil)))

def vpToJson (v : ViewPreferences) : Json :=
  .jobj (.fcons "displayMode" (.jstr (dmString v.displayMode))
    (.fcons "showForwardInfo" (.jbool v.showForwardInfo)
      (.fcons "showAuthorInfo" (.jbool v.showAuthorInfo)
        (.fcons "privacyOptions" (privacyToJson v.privacyOptions) .fnil))))

/-- Member list of an `enabledTypes` object: one boolean member per message
type that is present in the map, in `mtList` order. -/
def etFields : List MessageType → (MessageType → Option Bool) → JsonFields
  | [], _ => .fnil
  | t :: ts, g =>
    match g t with
    | some b => .fcons (mtName t) (.jbool b) (etFields ts g)
    | none => etFields ts g

/-- Prepend an optional member. -/
def optField (k : String) (v : Option Json) (rest : JsonFields) : JsonFields :=
  match v with
  | some j => .fcons k j rest
  | none => rest

def mfToJson (f : MessageFilters) : Json :=
  .jobj (optField "enabledTypes"
      ((f.enabledTypes).map fun g => .jobj (etFields mtList g))
    (optField "respondToAll" ((f.respondToAll).map .jbool) .fnil))

/-- The export object `exportObj` of `generateExportCommand`. -/
def exportToJson (sessionData : SessionData) : Json :=
  .jobj (.fcons "v" (vpToJson sessionData.viewPreferences)
    (.fcons "f" (mfToJson sessionData.messageFilters)
      (.fcons "u" (.jbool sessionData.usePerUserPreferences) .fnil)))

/-- The base64 token `generateExportCommand` embeds after `/import`. -/
def exportToken (sessionData : SessionData) : String :=
  btoaStr (String.mk (Json.stringify (exportToJson sessionData)))

/-- `generateExportCommand` of `src/session.ts`. -/
def generateExportCommand (sessionData : SessionData) : String :=
  "/import " ++ exportToken sessionData

/-- Result shape of `importSettings`: the raw parsed values of the `v`,
`f` and `u` properties, each absent when the key is missing.  The source
performs no validation, so the fields stay JSON values here. -/
structure ImportedSettings where
  viewPreferences : Option Json
  messageFilters : Option Json
  usePerUserPreferences : Option Json

/-- `importSettings` of `src/session.ts`: base64-decode, JSON-parse, then
read the `v`, `f` and `u` properties; any decode or parse failure is
caught and reported as `none`. -/
def importSettings (base64 : String) : Option ImportedSettings :=
  match atobStr base64 with
  | none => none
  | some jsonStr =>
    match parseJsonText jsonStr with
    | none => none
    | some importObj =>
      some ⟨jsonGet importObj "v", jsonGet importObj "f",
        jsonGet importObj "u"⟩

/-! Readers giving the runtime meaning of the JSON values the codec emits;
they are partial inverses of the `..toJson` encoders and witness that an
encoded component determines the component. -/

def jboolVal : Json → Option Bool
  | .jbool b => some b
  | _ => none

def dmOfString (s : String) : Option DisplayMode :=
  if s = "compact" then some .compact
  else if s = "full" then some .full
  else if s = "raw" then some .raw
  else none

def privacyOfJson (j : Json) : Option PrivacyOptions := do
  let mu ← (jsonGet j "maskUserIds").bind jboolVal
  let mp ← (jsonGet j "maskPhoneNumbers").bind jboolVal
  let mc ← (jsonGet j "maskChatIds").bind jboolVal
  pure ⟨mu, mp, mc⟩

def vpOfJson (j : Json) : Option ViewPreferences := do
  let dm ← ((jsonGet j "displayMode").bind fun v =>
    match v with
    | .jstr s => dmOfString s
    | _ => none)
  let sf ← (jsonGet j "showForwardInfo").bind jboolVal
  let sa ← (jsonGet j "showAuthorInfo").bind jboolVal
  let po ← (jsonGet j "privacyOptions").bind privacyOfJson
  pure ⟨dm, sf, sa, po⟩

def etOfJson : Json → Option (MessageType → Option Bool)
  | .jobj fs => some fun t => (fieldLookup (mtName t) fs).bind jboolVal
  | _ => none

def mfOfJson (j : Json) : Option MessageFilters :=
  some ⟨(jsonGet j "enabledTypes").bind etOfJson,
    (jsonGet j "respondToAll").bind jboolVal⟩

/-! ## The `/import` command handler (bot file)

The handler completes the session, splits the message text on whitespace
runs, and either replies with a usage hint (no token), a rejection (token
refused by `importSettings`) or applies the imported settings. -/

/-- Whitespace for the `\s` class as it occurs in command text. -/
def isWsChar (c : Char) : Bool :=
  (c == ' ') || (c == '\t') || (c == '\n') || (c == '\r')

/-- `text.split(/\s+/)`: maximal whitespace runs separate the pieces; a
leading or trailing run contributes an empty piece, as in JavaScript.
Fuel-driven; every step consumes at least one character. -/
def wsSplitScan : Nat → List Char → List Char → List String
  | 0, l, acc => [String.mk (acc.reverse ++ l)]
  | _ + 1, [], acc => [String.mk acc.reverse]
  | fuel + 1, c :: cs, acc =>
    if isWsChar c then
      String.mk acc.reverse ::
        wsSplitScan fuel (cs.dropWhile isWsChar) []
    else wsSplitScan fuel cs (c :: acc)

def wsSplit (s : String) : List String :=
  wsSplitScan s.data.length s.data []

/-- The three replies the `/import` handler can send. -/
inductive ImportReply where
  | usage
  | invalidCode
  | success
  deriving DecidableEq

/-- Truthiness of a parsed JSON value (`if (importedSettings.viewPreferences)`
tests the runtime value): `false` and the empty string are falsy, every
object is truthy. -/
def jsTruthy : Json → Bool
  | .jbool b => b
  | .jstr s => !(s.data.isEmpty)
  | .jobj _ => true

/-- The three conditional assignments of the handler's success branch.
The source stores the parsed values without validation; here each accepted
value is stored through its reader.  (Only the rejection branch, which
performs no assignment at all, is the subject of a claim.) -/
def applyImportedSettings (base : SessionData)
    (imported : ImportedSettings) : SessionData :=
  let s1 :=
    match imported.viewPreferences with
    | some v =>
      if jsTruthy v then
        match vpOfJson v with
        | some vp => { base with viewPreferences := vp }
        | none => base
      else base
    | none => base
  let s2 :=
    match imported.messageFilters with
    | some f =>
      if jsTruthy f then
        match mfOfJson f with
        | some mf => { s1 with messageFilters := mf }
        | none => s1
      else s1
    | none => s1
  match imported.usePerUserPreferences with
  | some u =>
    match jboolVal u with
    | some b => { s2 with usePerUserPreferences := b }
    | none => s2
  | none => s2

/-- The `/import` command handler: session state out (the handler first
reassigns `ctx.session = ensureCompleteSession(...)`, so even the early
returns carry the completed session) together with the reply sent.
`messageText` is `ctx.message?.text`. -/
def importCommand (session : PartialSessionData) (chatType : Option String)
    (messageText : Option String) : SessionData × ImportReply :=
  let base := ensureCompleteSession session chatType
  match messageText with
  | none => (base, .usage)
  | some text =>
    match wsSplit text with
    | _ :: importCode :: _ =>
      match importSettings importCode with
      | none => (base, .invalidCode)
      | some imported => (applyImportedSettings base imported, .success)
    | _ => (base, .usage)

/-! ## Lemmas: base64 round trip -/

theorem b64Index_b64Char : ∀ n < 64, b64Index (b64Char n) = some n := by
  decide

theorem b64Char_ne_eq : ∀ n < 64, ¬ b64Char n = '=' := by
  decide

theorem decodeB64_encodeB64 :
    ∀ l : List Nat, (∀ b ∈ l, b < 256) →
      decodeB64 (encodeB64 l) = some l := by
  intro l
  induction l using encodeB64.induct with
  | case1 =>
    intro _
    rfl
  | case2 a =>
    intro h
    have ha : a < 256 := h a (by simp)
    simp only [encodeB64, decodeB64]
    rw [b64Index_b64Char _ (by omega), b64Index_b64Char _ (by omega)]
    simp
    omega
  | case3 a b =>
    intro h
    have ha : a < 256 := h a (by simp)
    have hb : b < 256 := h b (by simp)
    have h3 : ¬ b64Char (b % 16 * 4) = '=' := b64Char_ne_eq _ (by omega)
    simp only [encodeB64, decodeB64]
    rw [b64Index_b64Char _ (by omega), b64Index_b64Char _ (by omega)]
    simp [h3, b64Index_b64Char _ (show b % 16 * 4 < 64 by omega)]
    omega
  | case4 a b c rest ih =>
    intro h
    have ha : a < 256 := h a (by simp)
    have hb : b < 256 := h b (by simp)
    have hc : c < 256 := h c (by simp)
    have hrest : ∀ x ∈ rest, x < 256 := by
      intro x hx
      exact h x (by simp [hx])
    have h3 : ¬ b64Char (b % 16 * 4 + c / 64) = '=' := b64Char_ne_eq _ (by omega)
    have h4 : ¬ b64Char (c % 64) = '=' := b64Char_ne_eq _ (by omega)
    simp only [encodeB64, decodeB64]
    rw [b64Index_b64Char _ (by omega), b64Index_b64Char _ (by omega)]
    simp [h3, h4, b64Index_b64Char _ (show b % 16 * 4 + c / 64 < 64 by omega),
      b64Index_b64Char _ (show c % 64 < 64 by omega), ih hrest]
    omega

/-- `atob` undoes `btoa` on single-byte strings. -/
theorem atobStr_btoaStr (s : String) (h : ∀ c ∈ s.data, c.toNat < 256) :
    atobStr (btoaStr s) = some s := by
  show (decodeB64 (encodeB64 (s.data.map Char.toNat))).map _ = some s
  rw [decodeB64_encodeB64]
  · simp [List.map_map, Function.comp_def, Char.ofNat_toNat]
  · intro b hb
    simp only [List.mem_map] at hb
    obtain ⟨c, hc, rfl⟩ := hb
    exact h c hc

/-! ## Lemmas: the JSON reader undoes `stringify` -/

theorem parseStrBody_append (l rest : List Char) (h : l.all goodChar = true) :
    parseStrBody (l ++ '\"' :: rest) = some (l, rest) := by
  induction l with
  | nil => rfl
  | cons c cs ih =>
    simp only [List.all_cons, Bool.and_eq_true] at h
    have hc : ¬ c = '\"' := by
      intro hcq
      subst hcq
      simp [goodChar] at h
    simp [parseStrBody, hc, ih h.2]

theorem stringMk_data (s : String) : String.mk s.data = s := rfl

theorem json_one_le_sizeOf : ∀ j : Json, 1 ≤ sizeOf j := by
  intro j
  cases j <;> simp

theorem jsonFields_one_le_sizeOf : ∀ fs : JsonFields, 1 ≤ sizeOf fs := by
  intro fs
  cases fs with
  | fnil => simp
  | fcons k v rest =>
    simp
    omega

theorem strFields_cons_shape (k : String) (v : Json) (fs' : JsonFields) :
    ∃ t, JsonFields.strFields (.fcons k v fs') = '\"' :: t := by
  cases fs' <;> exact ⟨_, rfl⟩

/-- The reader undoes `stringify` on well-formed values, whatever follows,
given enough fuel; simultaneously for values and for member lists (the
member reader also consumes the closing brace).  Strong induction on the
size of the value. -/
theorem parse_of_stringify (n : Nat) :
    (∀ j : Json, sizeOf j ≤ n → Json.wf j = true →
      ∀ fuel rest, Json.pdepth j ≤ fuel →
        parseJsonVal fuel (Json.stringify j ++ rest) = some (j, rest)) ∧
    (∀ fs : JsonFields, sizeOf fs ≤ n → JsonFields.wf fs = true →
      fs ≠ JsonFields.fnil →
      ∀ fuel rest, JsonFields.pdepth fs ≤ fuel →
        parseJsonMembers fuel (JsonFields.strFields fs ++ '\x7d' :: rest) =
          some (fs, rest)) := by
  induction n with
  | zero =>
    constructor
    · intro j hsz
      have := json_one_le_sizeOf j
      omega
    · intro fs hsz
      have := jsonFields_one_le_sizeOf fs
      omega
  | succ n ih =>
    obtain ⟨ihA, ihB⟩ := ih
    constructor
    · intro j hsz hwf fuel rest hfuel
      cases j with
      | jbool b =>
        cases fuel with
        | zero => simp [Json.pdepth] at hfuel
        | succ f => cases b <;> simp [Json.stringify, parseJsonVal]
      | jstr s =>
        cases fuel with
        | zero => simp [Json.pdepth] at hfuel
        | succ f =>
          have hs : s.data.all goodChar = true := by
            simpa [Json.wf] using hwf
          simp [Json.stringify, parseJsonVal, parseStrBody_append _ _ hs,
            stringMk_data]
      | jobj fs =>
        cases fuel with
        | zero => simp [Json.pdepth] at hfuel
        | succ f =>
          cases fs with
          | fnil => simp [Json.stringify, JsonFields.strFields, parseJsonVal]
          | fcons k v fs' =>
            have hsz' : sizeOf (JsonFields.fcons k v fs') ≤ n := by
              simp at hsz ⊢
              omega
            have hwf' : JsonFields.wf (JsonFields.fcons k v fs') = true := by
              simpa [Json.wf] using hwf
            have hfuel' : JsonFields.pdepth (JsonFields.fcons k v fs') ≤ f := by
              simp [Json.pdepth] at hfuel
              omega
            have hB := ihB _ hsz' hwf' (by simp) f rest hfuel'
            obtain ⟨t, ht⟩ := strFields_cons_shape k v fs'
            rw [ht] at hB
            simp only [Json.stringify, ht, List.cons_append, List.append_assoc]
            simp only [List.cons_append] at hB
            simp [parseJsonVal, hB]
    · intro fs hsz hwf hne fuel rest hfuel
      cases fs with
      | fnil => exact absurd rfl hne
      | fcons k v fs' =>
        cases fuel with
        | zero => simp [JsonFields.pdepth] at hfuel
        | succ f =>
          simp only [JsonFields.wf, Bool.and_eq_true] at hwf
          obtain ⟨⟨hk, hv⟩, hfs'⟩ := hwf
          simp only [JsonFields.pdepth] at hfuel
          have hfv : Json.pdepth v ≤ f := by omega
          have hffs : JsonFields.pdepth fs' ≤ f := by omega
          simp only [JsonFields.fcons.sizeOf_spec] at hsz
          have hszv : sizeOf v ≤ n := by omega
          have hszfs : sizeOf fs' ≤ n := by omega
          have hA := ihA v hszv hv f
          cases fs' with
          | fnil =>
            simp only [JsonFields.strFields, List.cons_append, List.append_assoc]
            simp [parseJsonMembers, parseStrBody_append _ _ hk,
              hA ('\x7d' :: rest) hfv, stringMk_data]
          | fcons k2 v2 fs'' =>
            have hBrec := ihB _ hszfs hfs' (by simp) f rest hffs
            simp only [JsonFields.strFields, List.cons_append, List.append_assoc]
            simp only [List.cons_append] at hBrec
            simp [parseJsonMembers, parseStrBody_append _ _ hk,
              hA (',' :: (JsonFields.strFields (.fcons k2 v2 fs'') ++ '\x7d' :: rest)) hfv,
              hBrec, stringMk_data]

/-- The fuel `length + 1` used by `parseJsonText` is always enough. -/
theorem pdepth_le_length (n : Nat) :
    (∀ j : Json, sizeOf j ≤ n →
      Json.pdepth j ≤ (Json.stringify j).length + 1) ∧
    (∀ fs : JsonFields, sizeOf fs ≤ n →
      JsonFields.pdepth fs ≤ (JsonFields.strFields fs).length + 1) := by
  induction n with
  | zero =>
    constructor
    · intro j hsz
      have := json_one_le_sizeOf j
      omega
    · intro fs hsz
      have := jsonFields_one_le_sizeOf fs
      omega
  | succ n ih =>
    obtain ⟨ihA, ihB⟩ := ih
    constructor
    · intro j hsz
      cases j with
      | jbool b => cases b <;> simp [Json.stringify, Json.pdepth]
      | jstr s => simp [Json.stringify, Json.pdepth]
      | jobj fs =>
        have hsz' : sizeOf fs ≤ n := by
          simp at hsz
          omega
        have := ihB fs hsz'
        simp only [Json.stringify, Json.pdepth, List.length_cons,
          List.length_append] at *
        omega
    · intro fs hsz
      cases fs with
      | fnil => simp [JsonFields.strFields, JsonFields.pdepth]
      | fcons k v fs' =>
        simp only [JsonFields.fcons.sizeOf_spec] at hsz
        have hv := ihA v (by omega)
        have hfs' := ihB fs' (by omega)
        cases fs' with
        | fnil =>
          simp only [JsonFields.strFields, JsonFields.pdepth,
            List.length_cons, List.length_append] at *
          omega
        | fcons k2 v2 fs'' =>
          simp only [JsonFields.strFields, JsonFields.pdepth,
            List.length_cons, List.length_append] at *
          omega

theorem goodChar_lt (c : Char) (h : goodChar c = true) : c.toNat < 256 := by
  simp only [goodChar, Bool.and_eq_true, decide_eq_true_eq] at h
  exact h.1.1

/-- Serialized well-formed values are single-byte text, so `btoa` accepts
them. -/
theorem stringify_ascii (n : Nat) :
    (∀ j : Json, sizeOf j ≤ n → Json.wf j = true →
      ∀ c ∈ Json.stringify j, c.toNat < 256) ∧
    (∀ fs : JsonFields, sizeOf fs ≤ n → JsonFields.wf fs = true →
      ∀ c ∈ JsonFields.strFields fs, c.toNat < 256) := by
  induction n with
  | zero =>
    constructor
    · intro j hsz
      have := json_one_le_sizeOf j
      omega
    · intro fs hsz
      have := jsonFields_one_le_sizeOf fs
      omega
  | succ n ih =>
    obtain ⟨ihA, ihB⟩ := ih
    constructor
    · intro j hsz hwf c hc
      cases j with
      | jbool b =>
        cases b <;> simp [Json.stringify] at hc <;> rcases hc with rfl | rfl | rfl | rfl | rfl <;> decide
      | jstr s =>
        simp only [Json.wf] at hwf
        simp only [Json.stringify] at hc
        rcases List.mem_cons.mp hc with rfl | hc2
        · decide
        rcases List.mem_append.mp hc2 with hc3 | hc3
        · exact goodChar_lt c (List.all_eq_true.mp hwf c hc3)
        · have := List.mem_singleton.mp hc3
          subst this
          decide
      | jobj fs =>
        have hsz' : sizeOf fs ≤ n := by
          simp at hsz
          omega
        simp only [Json.wf] at hwf
        simp only [Json.stringify] at hc
        rcases List.mem_cons.mp hc with rfl | hc2
        · decide
        rcases List.mem_append.mp hc2 with hc3 | hc3
        · exact ihB fs hsz' hwf c hc3
        · have := List.mem_singleton.mp hc3
          subst this
          decide
    · intro fs hsz hwf c hc
      cases fs with
      | fnil => simp [JsonFields.strFields] at hc
      | fcons k v fs' =>
        simp only [JsonFields.fcons.sizeOf_spec] at hsz
        simp only [JsonFields.wf, Bool.and_eq_true] at hwf
        obtain ⟨⟨hk, hv⟩, hfs'⟩ := hwf
        cases fs' with
        | fnil =>
          simp only [JsonFields.strFields] at hc
          rcases List.mem_cons.mp hc with rfl | hc2
          · decide
          rcases List.mem_append.mp hc2 with hc3 | hc3
          · exact goodChar_lt c (List.all_eq_true.mp hk c hc3)
          rcases List.mem_cons.mp hc3 with rfl | hc4
          · decide
          rcases List.mem_cons.mp hc4 with rfl | hc5
          · decide
          · exact ihA v (by omega) hv c hc5
        | fcons k2 v2 fs'' =>
          simp only [JsonFields.strFields] at hc
          rcases List.mem_cons.mp hc with rfl | hc2
          · decide
          rcases List.mem_append.mp hc2 with hc3 | hc3
          · exact goodChar_lt c (List.all_eq_true.mp hk c hc3)
          rcases List.mem_cons.mp hc3 with rfl | hc4
          · decide
          rcases List.mem_cons.mp hc4 with rfl | hc5
          · decide
          rcases List.mem_append.mp hc5 with hc6 | hc6
          · exact ihA v (by omega) hv c hc6
          rcases List.mem_cons.mp hc6 with rfl | hc7
          · decide
          · exact ihB (JsonFields.fcons k2 v2 fs'') (by omega) hfs' c hc7

/-- `JSON.parse` recovers a well-formed value from its `JSON.stringify`
text. -/
theorem parseJsonText_stringify (j : Json) (hwf : Json.wf j = true) :
    parseJsonText (String.mk (Json.stringify j)) = some j := by
  have hfuel : Json.pdepth j ≤ (Json.stringify j).length + 1 :=
    (pdepth_le_length (sizeOf j)).1 j le_rfl
  have hA := (parse_of_stringify (sizeOf j)).1 j le_rfl hwf
    ((Json.stringify j).length + 1) [] hfuel
  rw [List.append_nil] at hA
  simp [parseJsonText, hA]

/-! Well-formedness of everything the settings codec serializes. -/

theorem mtName_good : ∀ t : MessageType, (mtName t).data.all goodChar = true := by
  decide

theorem wf_etFields (g : MessageType → Option Bool) :
    ∀ ts : List MessageType, JsonFields.wf (etFields ts g) = true := by
  intro ts
  induction ts with
  | nil => rfl
  | cons t ts ih =>
    cases hgt : g t with
    | none => simp [etFields, hgt, ih]
    | some b => simp [etFields, hgt, JsonFields.wf, Json.wf, ih, mtName_good t]

theorem wf_privacyToJson (p : PrivacyOptions) :
    Json.wf (privacyToJson p) = true := by
  simp [privacyToJson, Json.wf, JsonFields.wf]
  decide

theorem dmString_good : ∀ d : DisplayMode, (dmString d).data.all goodChar = true := by
  intro d
  cases d <;> decide

theorem wf_vpToJson (v : ViewPreferences) : Json.wf (vpToJson v) = true := by
  have hp := wf_privacyToJson v.privacyOptions
  simp only [Json.wf] at hp
  simp [vpToJson, Json.wf, JsonFields.wf, dmString_good v.displayMode, hp]
  decide

theorem wf_mfToJson (f : MessageFilters) : Json.wf (mfToJson f) = true := by
  cases het : f.enabledTypes with
  | none =>
    cases hrt : f.respondToAll with
    | none => simp [mfToJson, het, hrt, optField, Json.wf, JsonFields.wf]
    | some b =>
      simp [mfToJson, het, hrt, optField, Json.wf, JsonFields.wf]
      decide
  | some g =>
    cases hrt : f.respondToAll with
    | none =>
      simp [mfToJson, het, hrt, optField, Json.wf, JsonFields.wf,
        wf_etFields g mtList]
      decide
    | some b =>
      simp [mfToJson, het, hrt, optField, Json.wf, JsonFields.wf,
        wf_etFields g mtList]
      decide

theorem wf_exportToJson (s : SessionData) :
    Json.wf (exportToJson s) = true := by
  have hv := wf_vpToJson s.viewPreferences
  have hf := wf_mfToJson s.messageFilters
  simp only [Json.wf] at hv hf
  simp [exportToJson, Json.wf, JsonFields.wf, hv, hf]
  decide

/-! Reading an encoded component back yields exactly the component. -/

theorem mtName_inj : ∀ a b : MessageType, mtName a = mtName b → a = b := by
  decide

theorem mtList_nodup : mtList.Nodup := by decide

theorem mtList_mem : ∀ t : MessageType, t ∈ mtList := by decide

theorem fieldLookup_etFields_notMem (g : MessageType → Option Bool)
    (t : MessageType) :
    ∀ ts : List MessageType, t ∉ ts →
      fieldLookup (mtName t) (etFields ts g) = none := by
  intro ts
  induction ts with
  | nil =>
    intro _
    rfl
  | cons t' ts ih =>
    intro hmem
    have hne : t ≠ t' := fun h => hmem (h ▸ List.mem_cons_self t' ts)
    have hname : ¬ mtName t = mtName t' := fun h => hne (mtName_inj t t' h)
    have hrest : t ∉ ts := fun h => hmem (List.mem_cons_of_mem t' h)
    cases hgt : g t' with
    | none => simp [etFields, hgt, ih hrest]
    | some b => simp [etFields, hgt, fieldLookup, hname, ih hrest]

theorem fieldLookup_etFields (g : MessageType → Option Bool)
    (t : MessageType) :
    ∀ ts : List MessageType, t ∈ ts → ts.Nodup →
      fieldLookup (mtName t) (etFields ts g) = (g t).map Json.jbool := by
  intro ts
  induction ts with
  | nil =>
    intro hmem
    simp at hmem
  | cons t' ts ih =>
    intro hmem hnodup
    rcases List.mem_cons.mp hmem with rfl | hmem'
    · have hnot : t ∉ ts := (List.nodup_cons.mp hnodup).1
      cases hgt : g t with
      | none => simp [etFields, hgt, fieldLookup_etFields_notMem g t ts hnot]
      | some b => simp [etFields, hgt, fieldLookup]
    · have hne : ¬ t = t' := by
        rintro rfl
        exact (List.nodup_cons.mp hnodup).1 hmem'
      have hname : ¬ mtName t = mtName t' := fun h => hne (mtName_inj t t' h)
      have := ih hmem' (List.nodup_cons.mp hnodup).2
      cases hgt : g t' with
      | none => simp [etFields, hgt, this]
      | some b => simp [etFields, hgt, fieldLookup, hname, this]

theorem etOfJson_etFields (g : MessageType → Option Bool) :
    etOfJson (Json.jobj (etFields mtList g)) = some g := by
  simp only [etOfJson, Option.some.injEq]
  funext t
  rw [fieldLookup_etFields g t mtList (mtList_mem t) mtList_nodup]
  cases g t <;> rfl

theorem privacyOfJson_privacyToJson (p : PrivacyOptions) :
    privacyOfJson (privacyToJson p) = some p := rfl

theorem vpOfJson_vpToJson (v : ViewPreferences) :
    vpOfJson (vpToJson v) = some v := by
  obtain ⟨d, sf, sa, po⟩ := v
  cases d <;> rfl

theorem mfOfJson_mfToJson (f : MessageFilters) :
    mfOfJson (mfToJson f) = some f := by
  obtain ⟨et, rt⟩ := f
  cases et with
  | none => cases rt <;> rfl
  | some g =>
    have h1 : jsonGet (mfToJson ⟨some g, rt⟩) "enabledTypes" =
        some (Json.jobj (etFields mtList g)) := by
      cases rt <;> rfl
    have h2 : jsonGet (mfToJson ⟨some g, rt⟩) "respondToAll" =
        rt.map Json.jbool := by
      cases rt <;> rfl
    simp only [mfOfJson, h1, h2, Option.some_bind, etOfJson_etFields g,
      Option.some.injEq, MessageFilters.mk.injEq]
    constructor
    · trivial
    · cases rt <;> rfl

/-- The heart of the codec round trip: decoding the exported token
recovers exactly the three serialized components. -/
theorem importSettings_exportToken (s : SessionData) :
    importSettings (exportToken s) =
      some ⟨some (vpToJson s.viewPreferences),
        some (mfToJson s.messageFilters),
        some (Json.jbool s.usePerUserPreferences)⟩ := by
  have hwf := wf_exportToJson s
  have hascii : ∀ c ∈ (String.mk (Json.stringify (exportToJson s))).data,
      c.toNat < 256 := by
    intro c hc
    exact (stringify_ascii (sizeOf (exportToJson s))).1 _ le_rfl hwf c hc
  have hatob := atobStr_btoaStr (String.mk (Json.stringify (exportToJson s))) hascii
  have hparse := parseJsonText_stringify (exportToJson s) hwf
  have h1 : jsonGet (exportToJson s) "v" = some (vpToJson s.viewPreferences) := rfl
  have h2 : jsonGet (exportToJson s) "f" = some (mfToJson s.messageFilters) := rfl
  have h3 : jsonGet (exportToJson s) "u" =
      some (Json.jbool s.usePerUserPreferences) := rfl
  simp [importSettings, exportToken, hatob, hparse, h1, h2, h3]

/-- Completing an already complete session changes nothing, whatever the
chat type: every field is present, so every default is ignored. -/
theorem ensureCompleteSession_partialOf (s : SessionData)
    (chatType : Option String) :
    ensureCompleteSession (partialOfSession s) chatType = s := rfl

/-! ## Claim theorems -/

/-- C1: evaluation of `shouldProcessMessageType` at the decisive inputs.
Absent filters process everything, and an explicit `photo := false` entry
under `respondToAll := false` suppresses photos, as claimed.  But for a
filter with `respondToAll := false` whose `enabledTypes` map lacks a
`photo` entry the source returns `false` (the expression
`filters.enabledTypes[messageType] || false` sends a missing entry to
`false`), although the claim — and the source's own comment directly above
that line, "If enabledTypes is undefined or the type isn't defined, default
to true" — requires `true`.  The third conjunct records that divergence. -/
theorem shouldProcessMessageType_eval :
    shouldProcessMessageType none MessageType.photo = true ∧
    shouldProcessMessageType
      (some ⟨some (fun t => some (decide (t ≠ MessageType.photo))), some false⟩)
      MessageType.photo = false ∧
    shouldProcessMessageType
      (some ⟨some (fun t => if t = MessageType.text then some true else none),
        some false⟩)
      MessageType.photo = false := by
  refine ⟨by decide, by decide, by decide⟩

/-- C2 counterexample: on `"ID 123456789 call +14155552671"` with all
three options enabled, the claimed phone rewrite (`+` and country code
followed by the fixed six-asterisk mask) does not happen: the output
contains no run of six asterisks at all, because the user-id pass has
already wrapped the first ten phone digits and destroyed the phone
pattern.  The first conjunct pins down the actual output. -/
theorem applyPrivacyMask_phone_not_masked_cex :
    applyPrivacyMask "ID 123456789 call +14155552671" ⟨true, true, true⟩ =
      "ID ****123456789**** call +****1415555267****1" ∧
    containsSeq sixStars
      (applyPrivacyMask "ID 123456789 call +14155552671"
        ⟨true, true, true⟩).data = false := by
  refine ⟨by decide, by decide⟩

/-- C2 (amended): the three substitutions run in order user ids, phones,
chat ids, each only when enabled, each over the previous output; with all
options disabled the text is unchanged.  On the scenario input with all
three options enabled the user-id pass wraps both the nine-digit id and
the first ten phone digits, so the later phone pass finds no `+`-digit
pattern and the six-asterisk phone mask does not appear (third conjunct:
user-id masking alone already produces that same output).  The phone
rewrite `+141******` appears only when the user-id mask is off. -/
theorem applyPrivacyMask_masking_behavior :
    (∀ text : String, applyPrivacyMask text ⟨false, false, false⟩ = text) ∧
    applyPrivacyMask "ID 123456789 call +14155552671" ⟨true, true, true⟩ =
      "ID ****123456789**** call +****1415555267****1" ∧
    applyPrivacyMask "ID 123456789 call +14155552671" ⟨true, false, false⟩ =
      "ID ****123456789**** call +****1415555267****1" ∧
    applyPrivacyMask "ID 123456789 call +14155552671" ⟨false, true, false⟩ =
      "ID 123456789 call +141******" := by
  refine ⟨fun t => rfl, by decide, by decide, by decide⟩

/-- C3: `ensureCompleteSession` is idempotent — completing a completed
session again, with the same chat type, changes nothing — and its result
always has all five `SessionData` fields present. -/
theorem ensureCompleteSession_idempotent :
    ∀ (p : PartialSessionData) (c : Option String),
      ensureCompleteSession (partialOfSession (ensureCompleteSession p c)) c =
        ensureCompleteSession p c ∧
      (partialOfSession (ensureCompleteSession p c)).enabled.isSome = true ∧
      (partialOfSession (ensureCompleteSession p c)).viewPreferences.isSome = true ∧
      (partialOfSession (ensureCompleteSession p c)).messageFilters.isSome = true ∧
      (partialOfSession (ensureCompleteSession p c)).usePerUserPreferences.isSome = true ∧
      (partialOfSession (ensureCompleteSession p c)).userPreferences.isSome = true := by
  intro p c
  exact ⟨rfl, rfl, rfl, rfl, rfl, rfl⟩

/-- A session with per-user preferences on and a stored entry for user id
`0` whose display mode differs from the group default. -/
def sessionWithZeroEntry : SessionData :=
  { enabled := true
    viewPreferences := getDefaultViewPreferences false
    messageFilters := getDefaultMessageFilters
    usePerUserPreferences := true
    userPreferences := fun u =>
      if u = 0 then some ⟨getDefaultViewPreferences true⟩ else none }

/-- C4 counterexample: with per-user preferences enabled and an entry
stored for user id `0`, `getEffectivePreferences` at user id `0` does not
return that entry's preferences — `!userId` treats `0` as an absent id, so
the group default is returned instead. -/
theorem getEffectivePreferences_zero_cex :
    sessionWithZeroEntry.usePerUserPreferences = true ∧
    sessionWithZeroEntry.userPreferences 0 =
      some ⟨getDefaultViewPreferences true⟩ ∧
    getEffectivePreferences (partialOfSession sessionWithZeroEntry) (some 0) ≠
      (⟨getDefaultViewPreferences true⟩ : UserPreferences).viewPreferences := by
  refine ⟨rfl, rfl, by decide⟩

/-- C4 (amended): for a complete session, (1) with per-user preferences
off the group preferences are returned for every caller; (2) with them on,
a stored entry for a nonzero user id is returned exactly, never the group
default; (3) with them on and no entry for the user, the group preferences
are the fallback.  The nonzero restriction in (2) is forced by the
truthiness test on the user id (see the counterexample and C10). -/
theorem getEffectivePreferences_resolution :
    ∀ (s : SessionData) (u : Nat),
      (s.usePerUserPreferences = false →
        ∀ userId : Option Nat,
          getEffectivePreferences (partialOfSession s) userId =
            s.viewPreferences) ∧
      (s.usePerUserPreferences = true → u ≠ 0 →
        ∀ up : UserPreferences, s.userPreferences u = some up →
          getEffectivePreferences (partialOfSession s) (some u) =
            up.viewPreferences) ∧
      (s.usePerUserPreferences = true → s.userPreferences u = none →
        getEffectivePreferences (partialOfSession s) (some u) =
          s.viewPreferences) := by
  intro s u
  refine ⟨?_, ?_, ?_⟩
  · intro h userId
    cases userId with
    | none => simp [getEffectivePreferences, ensureCompleteSession_partialOf]
    | some uid =>
      simp [getEffectivePreferences, ensureCompleteSession_partialOf, h]
  · intro h hu up hup
    have hbeq : (u == 0) = false := by
      simpa using hu
    simp [getEffectivePreferences, ensureCompleteSession_partialOf, h,
      hbeq, hup]
  · intro h hnone
    simp [getEffectivePreferences, ensureCompleteSession_partialOf, h, hnone]

/-- Witness for the amended C4 theorem: a concrete session exercising all
three branches. -/
def sessionWithUserFive : SessionData :=
  { enabled := true
    viewPreferences := getDefaultViewPreferences false
    messageFilters := getDefaultMessageFilters
    usePerUserPreferences := true
    userPreferences := fun u =>
      if u = 5 then some ⟨getDefaultViewPreferences true⟩ else none }

theorem getEffectivePreferences_resolution_witness :
    getEffectivePreferences (partialOfSession sessionWithUserFive) (some 5) =
      (⟨getDefaultViewPreferences true⟩ : UserPreferences).viewPreferences ∧
    getEffectivePreferences (partialOfSession sessionWithUserFive) (some 7) =
      sessionWithUserFive.viewPreferences ∧
    getEffectivePreferences (partialOfSession (getDefaultSession none)) (some 5) =
      (getDefaultSession none).viewPreferences := by
  refine ⟨?_, ?_, ?_⟩
  · exact (getEffectivePreferences_resolution sessionWithUserFive 5).2.1 rfl
      (by decide) ⟨getDefaultViewPreferences true⟩ (by decide)
  · exact (getEffectivePreferences_resolution sessionWithUserFive 7).2.2 rfl
      (by decide)
  · exact (getEffectivePreferences_resolution (getDefaultSession none) 5).1 rfl
      (some 5)

/-- C10: with per-user preferences enabled, a caller with user id `0` gets
the group `viewPreferences` even when an entry for key `0` exists in
`userPreferences`, because the absence check `!userId` is a numeric
truthiness test and `0` is falsy. -/
theorem getEffectivePreferences_userId_zero :
    ∀ (s : SessionData) (up : UserPreferences),
      s.usePerUserPreferences = true →
      s.userPreferences 0 = some up →
      getEffectivePreferences (partialOfSession s) (some 0) =
        s.viewPreferences := by
  intro s up h hup
  simp [getEffectivePreferences, ensureCompleteSession_partialOf]

/-- A session for the C10 witness, distinct from the C4 material. -/
def sessionZeroWitness : SessionData :=
  { enabled := false
    viewPreferences := getDefaultViewPreferences true
    messageFilters := getDefaultMessageFilters
    usePerUserPreferences := true
    userPreferences := fun u =>
      if u = 0 then some ⟨getDefaultViewPreferences false⟩ else none }

theorem getEffectivePreferences_userId_zero_witness :
    getEffectivePreferences (partialOfSession sessionZeroWitness) (some 0) =
      sessionZeroWitness.viewPreferences :=
  getEffectivePreferences_userId_zero sessionZeroWitness
    ⟨getDefaultViewPreferences false⟩ rfl (by decide)

/-- C7: for every runtime origin value, exactly one of the five type
guards accepts it, and whenever the tag is outside the four known ones
(for example `"story"`), the accepting guard is `isMessageOriginUnknown`. -/
theorem messageOrigin_guards_partition :
    ∀ origin : AnyMessageOrigin,
      ([isMessageOriginUser origin, isMessageOriginHiddenUser origin,
        isMessageOriginChat origin, isMessageOriginChannel origin,
        isMessageOriginUnknown origin].count true = 1) ∧
      (origin.type ∉ (["user", "hidden_user", "chat", "channel"] : List String) →
        isMessageOriginUnknown origin = true ∧
        isMessageOriginUser origin = false ∧
        isMessageOriginHiddenUser origin = false ∧
        isMessageOriginChat origin = false ∧
        isMessageOriginChannel origin = false) := by
  intro o
  by_cases h1 : o.type = "user"
  · constructor
    · simp [isMessageOriginUser, isMessageOriginHiddenUser,
        isMessageOriginChat, isMessageOriginChannel, isMessageOriginUnknown,
        h1]
    · intro hmem
      exact absurd (by simp [h1]) hmem
  by_cases h2 : o.type = "hidden_user"
  · constructor
    · simp [isMessageOriginUser, isMessageOriginHiddenUser,
        isMessageOriginChat, isMessageOriginChannel, isMessageOriginUnknown,
        h2]
    · intro hmem
      exact absurd (by simp [h2]) hmem
  by_cases h3 : o.type = "chat"
  · constructor
    · simp [isMessageOriginUser, isMessageOriginHiddenUser,
        isMessageOriginChat, isMessageOriginChannel, isMessageOriginUnknown,
        h3]
    · intro hmem
      exact absurd (by simp [h3]) hmem
  by_cases h4 : o.type = "channel"
  · constructor
    · simp [isMessageOriginUser, isMessageOriginHiddenUser,
        isMessageOriginChat, isMessageOriginChannel, isMessageOriginUnknown,
        h4]
    · intro hmem
      exact absurd (by simp [h4]) hmem
  · have e1 : (o.type == "user") = false := beq_eq_false_iff_ne.mpr h1
    have e2 : (o.type == "hidden_user") = false := beq_eq_false_iff_ne.mpr h2
    have e3 : (o.type == "chat") = false := beq_eq_false_iff_ne.mpr h3
    have e4 : (o.type == "channel") = false := beq_eq_false_iff_ne.mpr h4
    constructor
    · simp [isMessageOriginUser, isMessageOriginHiddenUser,
        isMessageOriginChat, isMessageOriginChannel, isMessageOriginUnknown,
        List.contains, e1, e2, e3, e4, h1, h2, h3, h4]
    · intro _
      simp [isMessageOriginUser, isMessageOriginHiddenUser,
        isMessageOriginChat, isMessageOriginChannel, isMessageOriginUnknown,
        List.contains, e1, e2, e3, e4, h1, h2, h3, h4]

theorem messageOrigin_guards_partition_witness :
    isMessageOriginUnknown ⟨"story", 0⟩ = true ∧
    ([isMessageOriginUser ⟨"story", 0⟩, isMessageOriginHiddenUser ⟨"story", 0⟩,
      isMessageOriginChat ⟨"story", 0⟩, isMessageOriginChannel ⟨"story", 0⟩,
      isMessageOriginUnknown ⟨"story", 0⟩].count true = 1) :=
  ⟨((messageOrigin_guards_partition ⟨"story", 0⟩).2 (by decide)).1,
    (messageOrigin_guards_partition ⟨"story", 0⟩).1⟩

/-- C8: `getDefaultSession` enables the bot exactly for private chats and
uses raw display exactly for group, supergroup and channel chats; in
particular a private chat starts enabled in compact mode and a supergroup
starts disabled in raw mode. -/
theorem getDefaultSession_defaults :
    (getDefaultSession (some "private")).enabled = true ∧
    (getDefaultSession (some "private")).viewPreferences.displayMode =
      DisplayMode.compact ∧
    (getDefaultSession (some "supergroup")).enabled = false ∧
    (getDefaultSession (some "supergroup")).viewPreferences.displayMode =
      DisplayMode.raw ∧
    (∀ chatType : Option String,
      ((getDefaultSession chatType).enabled = true ↔
        chatType = some "private") ∧
      ((getDefaultSession chatType).viewPreferences.displayMode =
          DisplayMode.raw ↔
        (chatType = some "group" ∨ chatType = some "supergroup" ∨
          chatType = some "channel"))) := by
  refine ⟨rfl, rfl, rfl, rfl, ?_⟩
  intro ct
  constructor
  · simp [getDefaultSession]
  · simp only [getDefaultSession, getDefaultViewPreferences]
    split
    · simp_all
      tauto
    · simp_all

/-- C5: the settings codec round trip.  The export command embeds the
token after `/import `; decoding that token with `importSettings` yields
exactly the `v` (group view preferences), `f` (message filters) and `u`
(per-user flag) components of the exported session, as parsed runtime
values — and the last two conjuncts show the encodings are lossless, so
those runtime values determine the original components exactly. -/
theorem settingsCodec_roundtrip :
    (∀ s : SessionData,
      generateExportCommand s = "/import " ++ exportToken s) ∧
    (∀ s : SessionData,
      importSettings (exportToken s) =
        some ⟨some (vpToJson s.viewPreferences),
          some (mfToJson s.messageFilters),
          some (Json.jbool s.usePerUserPreferences)⟩) ∧
    (∀ v : ViewPreferences, vpOfJson (vpToJson v) = some v) ∧
    (∀ f : MessageFilters, mfOfJson (mfToJson f) = some f) :=
  ⟨fun _ => rfl, importSettings_exportToken, vpOfJson_vpToJson,
    mfOfJson_mfToJson⟩

/-- C6: `importSettings` is total: it is a function into `Option`, and on
every input whose base64 decoding fails, and every input that decodes but
whose JSON parse fails, it returns `none` — the `try/catch` of the source
converts every decode or parse exception into `null`. -/
theorem importSettings_total_on_failure :
    ∀ s : String,
      (atobStr s = none → importSettings s = none) ∧
      (∀ decoded : String, atobStr s = some decoded →
        parseJsonText decoded = none → importSettings s = none) := by
  intro s
  constructor
  · intro h
    simp [importSettings, h]
  · intro d hd hp
    simp [importSettings, hd, hp]

theorem importSettings_total_on_failure_witness :
    importSettings "not-base64!!" = none :=
  (importSettings_total_on_failure "not-base64!!").1 (by decide)

/-- C9: when `importSettings` rejects the supplied token, the `/import`
handler leaves the (complete) session exactly as it was — in particular
`viewPreferences`, `messageFilters` and `usePerUserPreferences` are
untouched — and replies with the rejection message. -/
theorem importCommand_rejection_no_mutation :
    ∀ (s : SessionData) (chatType : Option String) (text : String)
      (firstArg importCode : String) (restArgs : List String),
      wsSplit text = firstArg :: importCode :: restArgs →
      importSettings importCode = none →
      importCommand (partialOfSession s) chatType (some text) =
        (s, ImportReply.invalidCode) := by
  intro s c text a code rest hsplit himp
  simp [importCommand, hsplit, himp, ensureCompleteSession_partialOf]

theorem importCommand_rejection_no_mutation_witness :
    importCommand (partialOfSession (getDefaultSession (some "private")))
      (some "private") (some "/import not-base64!!") =
      (getDefaultSession (some "private"), ImportReply.invalidCode) :=
  importCommand_rejection_no_mutation (getDefaultSession (some "private"))
    (some "private") "/import not-base64!!" "/import" "not-base64!!" []
    (by decide) (by rfl)
